import Mathlib

/-!
Verification development for the ddspdrum synth core
(`src/ddspdrum/parameter.py` and `src/ddspdrum/torchmodule.py`).

Modelling conventions:

* Tensor scalars are modelled as exact numbers: `ℚ` where the source code
  only performs field operations and rounding (the ADSR envelope assembly,
  the VCA, `seconds_to_samples`), and `ℝ` where the source uses
  transcendental functions (`ParameterRange` curves, `midi_to_hz`, the
  oscillators).
* 1-d tensors are `List ℚ` / `List ℝ`.
* A python `assert`, a `KeyError` or an `IndexError` makes the modelled
  operation return `none` (`Option`).
* `torch.round` rounds half to even; `roundHalfEven` below reproduces that.
* `torch.pow(ramp, alpha)` inside the ADSR ramps is real exponentiation
  with an arbitrary real exponent `alpha`; the envelope-structure theorems
  do not depend on the values it produces, so the ADSR embedding takes the
  sample-wise exponentiation as an explicit function argument
  `pw : ℚ → ℚ → ℚ` (first argument the base, second the exponent `alpha`)
  and all envelope theorems are proved for every such `pw` — in particular
  for any model of the true power function.  Concrete witnesses instantiate
  `pw` with `fun b _ => b` together with a stored `alpha` whose real value
  is 1, where true exponentiation agrees with it exactly.
* `ddspdrum/torchutil.py` and `ddspdrum/defaults.py` are not part of the
  sources; `midi_to_hz`, `normalize`, `fix_length` and `SAMPLE_RATE`
  below are modelled from the spec, as marked in their doc comments.
-/

/-- `torch.round` rounds to the nearest integer, ties to even (IEEE
round-half-even): `⌊q⌋` when the fractional part is below 1/2, `⌊q⌋ + 1`
when above, and the even neighbour at an exact tie. -/
def roundHalfEven (q : ℚ) : ℤ :=
  if q - ⌊q⌋ < 1/2 then ⌊q⌋
  else if 1/2 < q - ⌊q⌋ then ⌊q⌋ + 1
  else if ⌊q⌋ % 2 = 0 then ⌊q⌋ else ⌊q⌋ + 1

/-- Embeds `TorchSynthModule.seconds_to_samples`:
`torch.round(seconds * self.sample_rate).int()`.  The source performs no
sign check and never raises: the result is whatever the rounding gives. -/
def secondsToSamples (sample_rate : ℚ) (seconds : ℚ) : ℤ :=
  roundHalfEven (seconds * sample_rate)

lemma roundHalfEven_zero : roundHalfEven 0 = 0 := by norm_num [roundHalfEven]

lemma roundHalfEven_nonneg {q : ℚ} (h : 0 ≤ q) : 0 ≤ roundHalfEven q := by
  unfold roundHalfEven
  have hf0 : (0:ℤ) ≤ ⌊q⌋ := by
    have := Int.floor_nonneg.mpr h
    simpa using this
  split
  · exact hf0
  · split
    · omega
    · split <;> omega

lemma roundHalfEven_nonpos {q : ℚ} (h : q ≤ 0) : roundHalfEven q ≤ 0 := by
  unfold roundHalfEven
  have hf0 : ⌊q⌋ ≤ 0 := by
    have : ⌊q⌋ ≤ ⌊(0:ℚ)⌋ := Int.floor_le_floor h
    simpa using this
  have hneg : ¬ (q - ⌊q⌋ < 1/2) → ⌊q⌋ < 0 := by
    intro hr
    have hrge : (1:ℚ)/2 ≤ q - ⌊q⌋ := le_of_not_lt hr
    have hq2 : (⌊q⌋ : ℚ) ≤ -(1/2) := by linarith
    by_contra hc
    push_neg at hc
    have : (0:ℚ) ≤ (⌊q⌋ : ℚ) := by exact_mod_cast hc
    linarith
  split
  · exact hf0
  · rename_i hr
    have := hneg hr
    split
    · omega
    · split <;> omega

lemma pos_of_roundHalfEven_pos {q : ℚ} (h : 1 ≤ roundHalfEven q) : 0 < q := by
  by_contra hc
  push_neg at hc
  have := roundHalfEven_nonpos hc
  omega

/-- The three recognized response curves of a `ParameterRange`
(`"linear"`, `"log"`, `"exp"`); an unrecognized string raises at
construction time, so the embedding is the exhaustive inductive type. -/
inductive Curve where
  | linear
  | log
  | exp
deriving DecidableEq, Repr

/-- The numeric `self.curve` attribute set by `ParameterRange.__init__`:
linear ↦ 1, log ↦ 0.5, exp ↦ 2.0. -/
noncomputable def Curve.value : Curve → ℝ
  | .linear => 1
  | .log => 1/2
  | .exp => 2

/-- Embeds `ParameterRange`: a numeric range `[minimum, maximum]` with a
response curve. -/
structure ParameterRange where
  minimum : ℝ
  maximum : ℝ
  curve : Curve

/-- The factor `exp2(log2(value) / self.curve)` = `value ^ (1/curve)`
applied by `from_0to1` when the curve is non-linear: for the log curve
`1/0.5 = 2` gives `value ^ 2`, for the exp curve `1/2` gives `√value`.
At `value = 0` the float route gives `exp2(-inf / c) = 0`, which both
`0 ^ 2` and `√0` reproduce exactly, so no special case is needed. -/
noncomputable def Curve.fromFactor : Curve → ℝ → ℝ
  | .linear, v => v
  | .log, v => v ^ 2
  | .exp, v => Real.sqrt v

/-- The factor `normalized ^ self.curve` applied by `to_0to1` when the
curve is non-linear: log curve gives `√normalized`, exp gives
`normalized ^ 2`. -/
noncomputable def Curve.toFactor : Curve → ℝ → ℝ
  | .linear, v => v
  | .log, v => Real.sqrt v
  | .exp, v => v ^ 2

/-- Embeds `ParameterRange.from_0to1`: asserts `0 ≤ value ≤ 1`, applies
the curve factor, and maps into `[minimum, maximum]`. -/
noncomputable def ParameterRange.from_0to1 (r : ParameterRange) (value : ℝ) :
    Option ℝ :=
  if 0 ≤ value ∧ value ≤ 1 then
    some (r.minimum + (r.maximum - r.minimum) * r.curve.fromFactor value)
  else none

/-- Embeds `ParameterRange.to_0to1`: asserts
`minimum ≤ value ≤ maximum`, rescales to `[0,1]` and applies
`normalized ^ curve`. -/
noncomputable def ParameterRange.to_0to1 (r : ParameterRange) (value : ℝ) :
    Option ℝ :=
  if r.minimum ≤ value ∧ value ≤ r.maximum then
    some (r.curve.toFactor ((value - r.minimum) / (r.maximum - r.minimum)))
  else none

/-- Embeds `TorchParameter`: a named scalar whose `data` is the stored
normalized value, with an optional attached range. -/
structure TorchParameter where
  parameter_name : String
  data : ℝ
  parameter_range : Option ParameterRange

/-- Embeds `TorchParameter.get_in_range`: the real (ranged) value derived
from the stored normalized `data`.  `torchmodule.py` invokes this method
under the name `from_0to1` (the convenience accessor `p` is
`self.torchparameters[parameter_id].from_0to1()`); `parameter.py` in these
sources names it `get_in_range`, with exactly the body modelled here and
the behavior of spec §4.2 `get_real`. -/
noncomputable def TorchParameter.get_in_range (p : TorchParameter) : Option ℝ :=
  match p.parameter_range with
  | some r => r.from_0to1 p.data
  | none => some p.data

/-- Embeds `TorchParameter.set_with_range`:
`self.data = self.parameter_range.to_0to1(new_value)`, failing when no
range was set.  `torchmodule.py` invokes this mutation under the name
`to_0to1` (inside `set_parameter`); `parameter.py` in these sources names
it `set_with_range`, matching spec §4.2 `set_real`. -/
noncomputable def TorchParameter.set_with_range (p : TorchParameter)
    (new_value : ℝ) : Option TorchParameter :=
  match p.parameter_range with
  | some r => (r.to_0to1 new_value).map (fun d => { p with data := d })
  | none => none

/-- A module's parameter registry (`nn.ParameterDict`), as the ordered
list of its parameters; lookup by name, `none` for a missing key. -/
def findParameter (params : List TorchParameter) (parameter_id : String) :
    Option TorchParameter :=
  params.find? (fun p => p.parameter_name == parameter_id)

/-- Embeds `TorchSynthModule.set_parameter`:
`self.torchparameters[parameter_id].to_0to1(T(value))` — look up the named
parameter (KeyError ↦ `none`) and mutate its stored `data` in place via
the range conversion (`set_with_range` in `parameter.py`); the registry
keeps every other parameter unchanged. -/
noncomputable def setParameter (params : List TorchParameter)
    (parameter_id : String) (value : ℝ) : Option (List TorchParameter) :=
  match findParameter params parameter_id with
  | none => none
  | some p =>
      (p.set_with_range value).map
        (fun p' => params.map
          (fun q => if q.parameter_name == parameter_id then p' else q))

/-- The real value read back for a named parameter
(`self.torchparameters[parameter_id].from_0to1()`, the module accessor
`p`). -/
noncomputable def getParameterReal (params : List TorchParameter)
    (parameter_id : String) : Option ℝ :=
  match findParameter params parameter_id with
  | none => none
  | some p => p.get_in_range

/-- Embeds the state of a `TorchADSR` module.  Each parameter field holds
the stored normalized value (the `data` of the corresponding
`TorchParameter`), exactly as the module keeps it; the real (ranged)
values are derived by the `p…` functions below, mirroring the module
accessor `p`. -/
structure TorchADSR where
  sample_rate : ℚ
  attack : ℚ
  decay : ℚ
  sustain : ℚ
  release : ℚ
  alpha : ℚ

/-- Real value of the `attack` parameter: range `(0, 2, curve="log")`, so
`from_0to1` gives `0 + (2 - 0) * v ^ (1/0.5)` = `2 * v ^ 2` — exact in
`ℚ` since the log curve's exponent `1/0.5` is the integer 2. -/
def TorchADSR.pAttack (st : TorchADSR) : ℚ := 0 + (2 - 0) * st.attack ^ 2

/-- Real value of the `decay` parameter: range `(0, 2, curve="log")`. -/
def TorchADSR.pDecay (st : TorchADSR) : ℚ := 0 + (2 - 0) * st.decay ^ 2

/-- Real value of the `sustain` parameter: range `(0, 1)`, linear. -/
def TorchADSR.pSustain (st : TorchADSR) : ℚ := 0 + (1 - 0) * st.sustain

/-- Real value of the `release` parameter: range `(0, 5, curve="log")`. -/
def TorchADSR.pRelease (st : TorchADSR) : ℚ := 0 + (5 - 0) * st.release ^ 2

/-- Real value of the `alpha` parameter: range `(0.1, 6.0)`, linear. -/
def TorchADSR.pAlpha (st : TorchADSR) : ℚ := 1/10 + (6 - 1/10) * st.alpha

/-- Embeds `TorchADSR._ramp`:
`t = arange(seconds_to_samples(duration)) / sample_rate`,
`ramp = t * (1/duration)`, optional reversal `1 - ramp`, then
`torch.pow(ramp, alpha)` — the exponentiation is the abstracted `pw`
(see the file header).  A negative or too-small duration yields the empty
tensor, as `arange` does. -/
def TorchADSR.ramp (st : TorchADSR) (pw : ℚ → ℚ → ℚ) (duration : ℚ)
    (inverse : Bool) : List ℚ :=
  (List.range (secondsToSamples st.sample_rate duration).toNat).map
    (fun i : ℕ =>
      pw (if inverse then 1 - ((i : ℚ) / st.sample_rate) * (1 / duration)
          else ((i : ℚ) / st.sample_rate) * (1 / duration))
        st.pAlpha)

/-- Embeds the `attack` property: `self._ramp(self.p("attack"))`. -/
def TorchADSR.attackSeg (st : TorchADSR) (pw : ℚ → ℚ → ℚ) : List ℚ :=
  st.ramp pw st.pAttack false

/-- Embeds the `decay` property:
`self._ramp(self.p("decay"), inverse=True) * (1 - sustain) + sustain`. -/
def TorchADSR.decaySeg (st : TorchADSR) (pw : ℚ → ℚ → ℚ) : List ℚ :=
  (st.ramp pw st.pDecay true).map (fun x => x * (1 - st.pSustain) + st.pSustain)

/-- Embeds the `release` property: `self._ramp(self.p("release"),
inverse=True)`. -/
def TorchADSR.releaseSeg (st : TorchADSR) (pw : ℚ → ℚ → ℚ) : List ℚ :=
  st.ramp pw st.pRelease true

/-- Embeds `TorchADSR.note_on`: concatenate attack and decay, then
truncate to `num_samples` samples or extend with a constant sustain hold.
(`num_samples` is never negative on any reachable path: the caller only
passes `seconds_to_samples` of a non-negative duration.) -/
def TorchADSR.note_on (st : TorchADSR) (pw : ℚ → ℚ → ℚ)
    (num_samples : ℤ) : List ℚ :=
  let out_ := st.attackSeg pw ++ st.decaySeg pw
  if num_samples ≤ (out_.length : ℤ) then out_.take num_samples.toNat
  else out_ ++ List.replicate (num_samples - out_.length).toNat st.pSustain

/-- Embeds `TorchADSR.note_off`: `self.release * last_val`. -/
def TorchADSR.note_off (st : TorchADSR) (pw : ℚ → ℚ → ℚ)
    (last_val : ℚ) : List ℚ :=
  (st.releaseSeg pw).map (fun x => x * last_val)

/-- The body of `TorchADSR._forward` downstream of the one-shot
substitution: `num_samples = seconds_to_samples(note_on_duration)`,
`ADS = note_on(num_samples)`, `R = note_off(ADS[-1])` (an `IndexError`
when `ADS` is empty), and the concatenation `cat((ADS, R))`. -/
def TorchADSR.core (st : TorchADSR) (pw : ℚ → ℚ → ℚ)
    (note_on_duration : ℚ) : Option (List ℚ) :=
  let num_samples := secondsToSamples st.sample_rate note_on_duration
  let ADS := st.note_on pw num_samples
  if ADS.isEmpty then none
  else some (ADS ++ st.note_off pw ADS.getLast!)

/-- Embeds `TorchADSR._forward`: asserts `note_on_duration >= 0`; a
duration of exactly 0 enters one-shot mode, substituting
`p("attack") + p("decay")` as the effective note-on duration. -/
def TorchADSR.forward (st : TorchADSR) (pw : ℚ → ℚ → ℚ)
    (note_on_duration : ℚ) : Option (List ℚ) :=
  if note_on_duration < 0 then none
  else
    st.core pw
      (if note_on_duration = 0 then st.pAttack + st.pDecay
       else note_on_duration)

lemma TorchADSR.note_on_length (st : TorchADSR) (pw : ℚ → ℚ → ℚ)
    (num_samples : ℤ) (hn : 0 ≤ num_samples) :
    (st.note_on pw num_samples).length = num_samples.toNat := by
  simp only [note_on]
  split
  · rename_i hle
    simp only [List.length_take, List.length_append] at hle ⊢
    omega
  · rename_i hgt
    push_neg at hgt
    simp only [List.length_append, List.length_replicate] at hgt ⊢
    omega

/-- Modelled from the spec: `normalize` lives in `ddspdrum.torchutil`,
which is not among the sources.  Spec §4.6: the signal is "rescaled so
its peak magnitude is 1", i.e. divided by the maximum absolute sample
value; like the torch tensor operations it is pure (it returns the
rescaled signal, it does not mutate its argument — torch reserves the
trailing-underscore names for in-place mutation).  Namespaced to avoid
clashing with Mathlib's `normalize`. -/
def torchutil.normalize (signal : List ℚ) : List ℚ :=
  signal.map (fun x => x / (signal.foldr (fun y m => max |y| m) 0))

/-- Modelled from the spec: `fix_length` lives in `ddspdrum.torchutil`,
which is not among the sources.  Spec §4.3/§9: truncate or pad the signal
to exactly `length` samples, zero-filling when padding (the spec's stated
default). -/
def torchutil.fix_length (signal : List ℚ) (length : ℕ) : List ℚ :=
  if length ≤ signal.length then signal.take length
  else signal ++ List.replicate (length - signal.length) 0

/-- Embeds `TorchVCA._forward`: asserts every control sample lies in
`[0,1]`; when any audio sample has magnitude ≥ 1 the source evaluates
`normalize(audio_in)` but never assigns the result (the value is
discarded, so `audio_in` is left as it was); the audio is then
length-matched to the control signal and multiplied elementwise. -/
def TorchVCA.forward (control_in : List ℚ) (audio_in : List ℚ) :
    Option (List ℚ) :=
  if control_in.all (fun x => decide (0 ≤ x) && decide (x ≤ 1)) then
    let _discarded :=
      if audio_in.any (fun x => decide (x ≤ -1) || decide (1 ≤ x)) then
        torchutil.normalize audio_in
      else audio_in
    some (List.zipWith (fun c a => c * a) control_in
      (torchutil.fix_length audio_in control_in.length))
  else none

/-- Modelled from the spec: the global `SAMPLE_RATE` constant comes from
`ddspdrum.defaults`, which is not among the sources; its numeric value is
irrelevant to every claim below (only its positivity is used), and the
conventional audio rate 44100 is taken.  `TorchVCO.make_argument` divides
by this module-level constant, not by `self.sample_rate`. -/
noncomputable def SAMPLE_RATE : ℝ := 44100

/-- Modelled from the spec: `midi_to_hz` lives in `ddspdrum.torchutil`,
which is not among the sources.  Spec §4.5: the standard MIDI-to-frequency
formula `440 * 2^((midi - 69)/12)`. -/
noncomputable def midiToHz (midi : ℝ) : ℝ := 440 * (2:ℝ) ^ ((midi - 69) / 12)

/-- The concrete oscillator variants built on the `TorchVCO` base class. -/
inductive VCOKind where
  | sine
  | fm
  | squaresaw
deriving DecidableEq, Repr

/-- Embeds the state of a `TorchVCO` (any variant).  `pitch`, `mod_depth`
and `shape` hold the stored normalized parameter values (`shape` exists
only on `TorchSquareSawVCO` in the source; the other variants never read
it).  `phase` is the persisted scalar the render call overwrites. -/
structure TorchVCO where
  kind : VCOKind
  pitch : ℚ
  mod_depth : ℚ
  shape : ℚ
  phase : ℝ

/-- Real value of the `pitch` parameter: range `(0.0, 127.0)`, linear. -/
noncomputable def TorchVCO.pPitch (v : TorchVCO) : ℝ :=
  0 + (127 - 0) * (v.pitch : ℝ)

/-- Real value of the `mod_depth` parameter: range `(0.0, 127.0)`,
linear. -/
noncomputable def TorchVCO.pModDepth (v : TorchVCO) : ℝ :=
  0 + (127 - 0) * (v.mod_depth : ℝ)

/-- Real value of the `shape` parameter: range `(0.0, 1.0)`, linear. -/
noncomputable def TorchVCO.pShape (v : TorchVCO) : ℝ :=
  0 + (1 - 0) * (v.shape : ℝ)

/-- Embeds `make_control_as_frequency`, per variant.  `TorchVCO` (and so
`TorchSineVCO` and `TorchSquareSawVCO`): pitch modulation in midi space,
`midi_to_hz(p("pitch") + p("mod_depth") * mod_signal)`.  `TorchFmVCO`
overrides it: `f0 = midi_to_hz(p("pitch"))`, and per sample
`f0 + (p("mod_depth") * f0) * mod_signal`. -/
noncomputable def TorchVCO.makeControlAsFrequency (v : TorchVCO)
    (mod_sample : ℝ) : ℝ :=
  match v.kind with
  | .sine | .squaresaw => midiToHz (v.pPitch + v.pModDepth * mod_sample)
  | .fm => midiToHz v.pPitch + (v.pModDepth * midiToHz v.pPitch) * mod_sample

/-- `torch.cumsum` along dimension 0: the list of running partial sums. -/
def cumsum (l : List ℝ) : List ℝ := (l.scanl (fun a b => a + b) 0).drop 1

/-- Embeds `TorchVCO.make_argument` plus the `+ phase` of `_forward`:
`cumsum(2 * pi * control_as_frequency / SAMPLE_RATE) + phase`. -/
noncomputable def TorchVCO.cosArg (v : TorchVCO) (mod_signal : List ℝ)
    (phase : ℝ) : List ℝ :=
  (cumsum (mod_signal.map
      (fun m => 2 * Real.pi * v.makeControlAsFrequency m / SAMPLE_RATE))).map
    (fun a => a + phase)

/-- Embeds `TorchSquareSawVCO.partials_constant`:
`12000 / (max_f0 * log10(max_f0))` with
`max_f0 = midi_to_hz(p("pitch") + p("mod_depth"))`. -/
noncomputable def TorchVCO.partials_constant (v : TorchVCO) : ℝ :=
  12000 / (midiToHz (v.pPitch + v.pModDepth) *
    Real.logb 10 (midiToHz (v.pPitch + v.pModDepth)))

/-- Embeds the per-variant `oscillator` waveform: `cos` for the sine and
FM variants; for the square/saw variant
`square = tanh(pi * partials_constant * sin(argument) / 2)` blended as
`(1 - shape/2) * square * (1 + shape * cos(argument))`. -/
noncomputable def TorchVCO.oscillator (v : TorchVCO) (argument : List ℝ) :
    List ℝ :=
  match v.kind with
  | .sine | .fm => argument.map Real.cos
  | .squaresaw =>
      argument.map (fun a =>
        (1 - v.pShape / 2) *
          Real.tanh (Real.pi * v.partials_constant * Real.sin a / 2) *
          (1 + v.pShape * Real.cos a))

open Classical in
/-- Embeds `TorchVCO._forward`: asserts every modulation sample lies in
`[-1, 1]`; builds the cosine argument from the modulation signal and the
explicit `phase` argument (default `0.0` at the python call site — the
stored `self.phase` is never read); assigns
`self.phase = cosine_argument[-1]` (an `IndexError` on an empty signal)
and returns the waveform.  The result pairs the updated module state with
the output buffer. -/
noncomputable def TorchVCO.render (v : TorchVCO) (mod_signal : List ℝ)
    (phase : ℝ) : Option (TorchVCO × List ℝ) :=
  if ∀ m ∈ mod_signal, -1 ≤ m ∧ m ≤ 1 then
    if (v.cosArg mod_signal phase).isEmpty then none
    else
      some ({ v with phase := (v.cosArg mod_signal phase).getLast! },
        v.oscillator (v.cosArg mod_signal phase))
  else none

lemma cumsum_length (l : List ℝ) : (cumsum l).length = l.length := by
  simp [cumsum, List.length_scanl]

lemma TorchVCO.cosArg_length (v : TorchVCO) (mod_signal : List ℝ)
    (phase : ℝ) : (v.cosArg mod_signal phase).length = mod_signal.length := by
  simp [cosArg, cumsum_length]

/-- C6 (counterexample): `seconds_to_samples` performs no sign check at
all.  At `sample_rate = 10` and `seconds = -1` it succeeds and returns
the negative count `-10`, contradicting the claim that the result is
always non-negative and that a negative duration fails with
`InvalidDuration`. -/
theorem claim_C6_counterexample :
    secondsToSamples 10 (-1) = -10 ∧ secondsToSamples 10 (-1) < 0 := by
  constructor <;> norm_num [secondsToSamples, roundHalfEven]

/-- C6 (amended): `seconds_to_samples(seconds)` returns
`round(seconds * sample_rate)` (round half to even) as an integer, and
the result is non-negative whenever `seconds ≥ 0`; the source contains no
negativity check, so nothing fails for `seconds < 0` — the result is then
simply negative. -/
theorem claim_C6 (sample_rate seconds : ℚ) (hsr : 0 ≤ sample_rate)
    (hs : 0 ≤ seconds) :
    secondsToSamples sample_rate seconds = roundHalfEven (seconds * sample_rate)
      ∧ 0 ≤ secondsToSamples sample_rate seconds :=
  ⟨rfl, roundHalfEven_nonneg (mul_nonneg hs hsr)⟩

/-- C6 (witness): the amended theorem applied at `sample_rate = 10`,
`seconds = 1/4`. -/
theorem claim_C6_witness :
    secondsToSamples 10 (1/4) = roundHalfEven ((1/4) * 10)
      ∧ 0 ≤ secondsToSamples 10 (1/4) :=
  claim_C6 10 (1/4) (by norm_num) (by norm_num)

lemma TorchADSR.forward_zero_of_attack_decay_zero (st : TorchADSR)
    (pw : ℚ → ℚ → ℚ) (ha : st.pAttack = 0) (hd : st.pDecay = 0) :
    st.forward pw 0 = none := by
  simp [TorchADSR.forward, TorchADSR.core, TorchADSR.note_on,
    TorchADSR.attackSeg, TorchADSR.decaySeg, TorchADSR.ramp, ha, hd,
    secondsToSamples, roundHalfEven_zero]

/-- C10: with both `attack` and `decay` at real value 0 and a
`note_on_duration` of 0 (one-shot mode), the attack-and-decay buffer is
empty and `ADS[-1]` raises rather than returning a release-only
envelope: render fails. -/
theorem claim_C10 (st : TorchADSR) (pw : ℚ → ℚ → ℚ)
    (ha : st.pAttack = 0) (hd : st.pDecay = 0) :
    st.forward pw 0 = none :=
  TorchADSR.forward_zero_of_attack_decay_zero st pw ha hd

/-- The sample-wise exponentiation used by concrete ADSR instances below:
together with a stored `alpha` whose real value is 1 it agrees with
`torch.pow(ramp, alpha)` exactly (`x ** 1 == x`). -/
def pwId : ℚ → ℚ → ℚ := fun b _ => b

/-- A concrete ADSR whose `attack` and `decay` normalized values are 0
(real values 0 seconds); `alpha`'s stored value `9/59` maps to the real
value `0.1 + 5.9 * 9/59 = 1`. -/
def adsrZeroAD : TorchADSR :=
  { sample_rate := 10, attack := 0, decay := 0, sustain := 1/2,
    release := 1/2, alpha := 9/59 }

/-- C10 (witness): the failing render evaluated on `adsrZeroAD`. -/
theorem claim_C10_witness : adsrZeroAD.forward pwId 0 = none :=
  claim_C10 adsrZeroAD pwId (by norm_num [TorchADSR.pAttack, adsrZeroAD])
    (by norm_num [TorchADSR.pDecay, adsrZeroAD])

/-- C3: whenever `n = seconds_to_samples(note_on_duration)` satisfies
`1 ≤ n ≤ len(attack ++ decay)` (for a module with a positive sample
rate), render returns the first `n` samples of the attack-decay
concatenation followed by the release segment scaled elementwise by the
last kept sample — in particular, with a note released inside the attack,
the release tail starts from the truncated attack's last value. -/
theorem claim_C3 (st : TorchADSR) (pw : ℚ → ℚ → ℚ) (d : ℚ)
    (hsr : 0 < st.sample_rate)
    (h1 : 1 ≤ secondsToSamples st.sample_rate d)
    (h2 : secondsToSamples st.sample_rate d
      ≤ ((st.attackSeg pw ++ st.decaySeg pw).length : ℤ)) :
    st.forward pw d = some
      (((st.attackSeg pw ++ st.decaySeg pw).take
          (secondsToSamples st.sample_rate d).toNat) ++
        (st.releaseSeg pw).map (fun x =>
          x * ((st.attackSeg pw ++ st.decaySeg pw).take
            (secondsToSamples st.sample_rate d).toNat).getLast!)) := by
  have hpos : 0 < d * st.sample_rate := pos_of_roundHalfEven_pos h1
  have hd : 0 < d := by
    by_contra hc
    push_neg at hc
    nlinarith
  have h0 : (0:ℤ) ≤ secondsToSamples st.sample_rate d := by omega
  have hlen := TorchADSR.note_on_length st pw (secondsToSamples st.sample_rate d) h0
  have hADSne : st.note_on pw (secondsToSamples st.sample_rate d) ≠ [] := by
    intro hnil
    rw [hnil] at hlen
    simp only [List.length_nil] at hlen
    omega
  have hADS : st.note_on pw (secondsToSamples st.sample_rate d)
      = (st.attackSeg pw ++ st.decaySeg pw).take
          (secondsToSamples st.sample_rate d).toNat := by
    simp only [TorchADSR.note_on]
    rw [if_pos h2]
  simp only [TorchADSR.forward, TorchADSR.core, TorchADSR.note_off]
  rw [if_neg (not_lt.mpr hd.le), if_neg hd.ne']
  rw [if_neg (by simpa using hADSne)]
  rw [hADS]

/-- A concrete ADSR with a 2-second attack (normalized 1), zero decay,
sustain 1/2, a positive release, real `alpha = 1`, at sample rate 10. -/
def adsrTrunc : TorchADSR :=
  { sample_rate := 10, attack := 1, decay := 0, sustain := 1/2,
    release := 1/3, alpha := 9/59 }

/-- C3 (witness): the theorem applied to `adsrTrunc` with
`note_on_duration = 1/2` (5 samples, inside the 20-sample attack). -/
theorem claim_C3_witness :
    adsrTrunc.forward pwId (1/2) = some
      (((adsrTrunc.attackSeg pwId ++ adsrTrunc.decaySeg pwId).take
          (secondsToSamples adsrTrunc.sample_rate (1/2)).toNat) ++
        (adsrTrunc.releaseSeg pwId).map (fun x =>
          x * ((adsrTrunc.attackSeg pwId ++ adsrTrunc.decaySeg pwId).take
            (secondsToSamples adsrTrunc.sample_rate (1/2)).toNat).getLast!)) :=
  claim_C3 adsrTrunc pwId (1/2) (by norm_num [adsrTrunc])
    (by norm_num [adsrTrunc, secondsToSamples, roundHalfEven])
    (by norm_num [adsrTrunc, secondsToSamples, roundHalfEven,
      TorchADSR.attackSeg, TorchADSR.decaySeg, TorchADSR.ramp,
      TorchADSR.pAttack, TorchADSR.pDecay])

/-- C2 (amended): with `note_on_duration` exactly 0, `_forward` is not an
error case *per se*: it substitutes `attack + decay` as the effective
note-on duration and proceeds; provided
`n = seconds_to_samples(attack + decay) ≥ 1` it succeeds and the envelope
has total length `n + len(release_segment)`.  (When rounding makes `n`
exceed `len(attack_segment) + len(decay_segment)`, the envelope holds the
sustain value for the difference — one-shot mode does not guarantee the
absence of a sustain hold — and when `n = 0` the render fails; see the
counterexample.) -/
theorem claim_C2 (st : TorchADSR) (pw : ℚ → ℚ → ℚ) :
    st.forward pw 0 = st.core pw (st.pAttack + st.pDecay) ∧
    (1 ≤ secondsToSamples st.sample_rate (st.pAttack + st.pDecay) →
      (st.forward pw 0).map (fun env => (env.length : ℤ)) =
        some (secondsToSamples st.sample_rate (st.pAttack + st.pDecay) +
          ((st.releaseSeg pw).length : ℤ))) := by
  have hfwd : st.forward pw 0 = st.core pw (st.pAttack + st.pDecay) := by
    simp [TorchADSR.forward]
  refine ⟨hfwd, fun h1 => ?_⟩
  have h0 : (0:ℤ) ≤ secondsToSamples st.sample_rate (st.pAttack + st.pDecay) := by
    omega
  have hlen := TorchADSR.note_on_length st pw
    (secondsToSamples st.sample_rate (st.pAttack + st.pDecay)) h0
  have hADSne : st.note_on pw
      (secondsToSamples st.sample_rate (st.pAttack + st.pDecay)) ≠ [] := by
    intro hnil
    rw [hnil] at hlen
    simp only [List.length_nil] at hlen
    omega
  rw [hfwd]
  simp only [TorchADSR.core]
  rw [if_neg (by simpa using hADSne)]
  simp only [Option.map_some', List.length_append, TorchADSR.note_off,
    List.length_map, hlen]
  congr 1
  rw [Nat.cast_add, Int.toNat_of_nonneg h0]

/-- A concrete ADSR at sample rate 9 whose stored `attack` and `decay`
values `1/2` map to real durations of `1/2` second each: the attack and
decay segments round to 4 samples each (`round(4.5) = 4`, ties to even),
while the one-shot effective duration rounds to
`round(9) = 9 > 4 + 4` samples. -/
def adsrHold : TorchADSR :=
  { sample_rate := 9, attack := 1/2, decay := 1/2, sustain := 1/2,
    release := 1/3, alpha := 9/59 }

/-- C2 (counterexample): two concrete one-shot renders refute the claim
as stated.  First, with `attack = decay = 0` (in their declared ranges)
the render with `note_on_duration = 0` fails instead of succeeding.
Second, on `adsrHold` the render succeeds with the 14-sample envelope
below: `seconds_to_samples(attack + decay) = 9` but the attack and decay
segments together hold only 8 samples, so sample index 8 (value `1/2`,
the sustain level, between the decay's last sample `2/3` and the release
tail) is a one-sample sustain hold — the claimed absence of any sustain
hold is false. -/
theorem claim_C2_counterexample :
    adsrZeroAD.forward pwId 0 = none ∧
    adsrHold.forward pwId 0 = some
      [0, 2/9, 4/9, 2/3, 1, 8/9, 7/9, 2/3, 1/2, 1/2, 2/5, 3/10, 1/5, 1/10] ∧
    (adsrHold.attackSeg pwId ++ adsrHold.decaySeg pwId).length = 8 := by
  have h4a : secondsToSamples adsrHold.sample_rate adsrHold.pAttack = 4 := by
    norm_num [adsrHold, TorchADSR.pAttack, secondsToSamples, roundHalfEven]
  have h4d : secondsToSamples adsrHold.sample_rate adsrHold.pDecay = 4 := by
    norm_num [adsrHold, TorchADSR.pDecay, secondsToSamples, roundHalfEven]
  have h5r : secondsToSamples adsrHold.sample_rate adsrHold.pRelease = 5 := by
    norm_num [adsrHold, TorchADSR.pRelease, secondsToSamples, roundHalfEven]
  have h9 : secondsToSamples adsrHold.sample_rate
      (adsrHold.pAttack + adsrHold.pDecay) = 9 := by
    norm_num [adsrHold, TorchADSR.pAttack, TorchADSR.pDecay,
      secondsToSamples, roundHalfEven]
  have hA : adsrHold.attackSeg pwId = [0, 2/9, 4/9, 2/3] := by
    simp only [TorchADSR.attackSeg, TorchADSR.ramp, h4a,
      show Int.toNat 4 = 4 from rfl,
      show List.range 4 = [0, 1, 2, 3] from rfl, List.map_cons, List.map_nil,
      pwId]
    norm_num [adsrHold, TorchADSR.pAttack]
  have hD : adsrHold.decaySeg pwId = [1, 8/9, 7/9, 2/3] := by
    simp only [TorchADSR.decaySeg, TorchADSR.ramp, h4d,
      show Int.toNat 4 = 4 from rfl,
      show List.range 4 = [0, 1, 2, 3] from rfl, List.map_cons, List.map_nil,
      pwId]
    norm_num [adsrHold, TorchADSR.pDecay, TorchADSR.pSustain]
  have hR : adsrHold.releaseSeg pwId = [1, 4/5, 3/5, 2/5, 1/5] := by
    simp only [TorchADSR.releaseSeg, TorchADSR.ramp, h5r,
      show Int.toNat 5 = 5 from rfl,
      show List.range 5 = [0, 1, 2, 3, 4] from rfl, List.map_cons,
      List.map_nil, pwId]
    norm_num [adsrHold, TorchADSR.pRelease]
  have hADS : adsrHold.note_on pwId 9 =
      [0, 2/9, 4/9, 2/3, 1, 8/9, 7/9, 2/3, 1/2] := by
    simp only [TorchADSR.note_on, hA, hD]
    norm_num [adsrHold, TorchADSR.pSustain,
      show Int.toNat (9 - 8) = 1 from rfl]
  refine ⟨?_, ?_, ?_⟩
  · exact TorchADSR.forward_zero_of_attack_decay_zero adsrZeroAD pwId
      (by norm_num [TorchADSR.pAttack, adsrZeroAD])
      (by norm_num [TorchADSR.pDecay, adsrZeroAD])
  · have hLast :
        ([0, 2/9, 4/9, 2/3, 1, 8/9, 7/9, 2/3, 1/2] : List ℚ).getLast! = 1/2 :=
      rfl
    norm_num [TorchADSR.forward, TorchADSR.core, TorchADSR.note_off, h9,
      hADS, hLast, hR]
  · rw [List.length_append, hA, hD]
    norm_num

/-- C2 (witness): the amended theorem applied to `adsrHold`, whose
one-shot sample count is `9 ≥ 1`: the render succeeds with total length
`9 + 5 = 14`. -/
theorem claim_C2_witness :
    (adsrHold.forward pwId 0).map (fun env => (env.length : ℤ)) =
      some (secondsToSamples adsrHold.sample_rate
          (adsrHold.pAttack + adsrHold.pDecay) +
        ((adsrHold.releaseSeg pwId).length : ℤ)) :=
  (claim_C2 adsrHold pwId).2
    (by norm_num [adsrHold, TorchADSR.pAttack, TorchADSR.pDecay,
      secondsToSamples, roundHalfEven])

lemma Curve.toFactor_nonneg (c : Curve) {m : ℝ} (h0 : 0 ≤ m) :
    0 ≤ c.toFactor m := by
  cases c <;> simp [Curve.toFactor] <;> positivity

lemma Curve.toFactor_le_one (c : Curve) {m : ℝ} (h0 : 0 ≤ m) (h1 : m ≤ 1) :
    c.toFactor m ≤ 1 := by
  cases c
  · simpa [Curve.toFactor] using h1
  · simpa [Curve.toFactor] using Real.sqrt_le_one.mpr h1
  · calc m ^ 2 ≤ 1 ^ 2 := by nlinarith
    _ = 1 := one_pow 2

lemma Curve.fromFactor_nonneg (c : Curve) {m : ℝ} (h0 : 0 ≤ m) :
    0 ≤ c.fromFactor m := by
  cases c <;> simp [Curve.fromFactor] <;> positivity

lemma Curve.fromFactor_le_one (c : Curve) {m : ℝ} (h0 : 0 ≤ m) (h1 : m ≤ 1) :
    c.fromFactor m ≤ 1 := by
  cases c
  · simpa [Curve.fromFactor] using h1
  · calc m ^ 2 ≤ 1 ^ 2 := by nlinarith
    _ = 1 := one_pow 2
  · simpa [Curve.fromFactor] using Real.sqrt_le_one.mpr h1

lemma Curve.fromFactor_toFactor (c : Curve) {m : ℝ} (h0 : 0 ≤ m) :
    c.fromFactor (c.toFactor m) = m := by
  cases c
  · rfl
  · simpa [Curve.fromFactor, Curve.toFactor] using Real.sq_sqrt h0
  · simpa [Curve.fromFactor, Curve.toFactor] using Real.sqrt_sq h0

lemma Curve.toFactor_fromFactor (c : Curve) {x : ℝ} (h0 : 0 ≤ x) :
    c.toFactor (c.fromFactor x) = x := by
  cases c
  · rfl
  · simpa [Curve.fromFactor, Curve.toFactor] using Real.sqrt_sq h0
  · simpa [Curve.fromFactor, Curve.toFactor] using Real.sq_sqrt h0

lemma find?_replace {α} (pred : α → Bool) (p' : α) (hp' : pred p' = true) :
    ∀ (l : List α) (p : α), l.find? pred = some p →
      (l.map (fun q => if pred q then p' else q)).find? pred = some p'
  | [], p, h => by simp at h
  | a :: t, p, h => by
    by_cases ha : pred a = true
    · simp only [List.map_cons, if_pos ha]
      rw [List.find?_cons_of_pos _ hp']
    · simp only [List.find?_cons_of_neg _ ha] at h
      simp only [List.map_cons, if_neg ha]
      rw [List.find?_cons_of_neg _ ha]
      exact find?_replace pred p' hp' t p h

/-- C1: for a module whose registry holds parameter `parameter_id` with a
range (minimum < maximum) and any `value` within that range,
`set_parameter` succeeds, the parameter's stored normalized `data`
becomes exactly `range.to_0to1(value)`, and a subsequent read of the
parameter's real value returns `value`. -/
theorem claim_C1 (params : List TorchParameter) (parameter_id : String)
    (p : TorchParameter) (r : ParameterRange)
    (hfind : findParameter params parameter_id = some p)
    (hrange : p.parameter_range = some r)
    (hlt : r.minimum < r.maximum)
    (value : ℝ) (hv1 : r.minimum ≤ value) (hv2 : value ≤ r.maximum) :
    (setParameter params parameter_id value).bind
        (fun ps => (findParameter ps parameter_id).map TorchParameter.data)
      = r.to_0to1 value ∧
    (setParameter params parameter_id value).bind
        (fun ps => getParameterReal ps parameter_id) = some value := by
  have hdelta : (0:ℝ) < r.maximum - r.minimum := by linarith
  have hm0 : 0 ≤ (value - r.minimum) / (r.maximum - r.minimum) :=
    div_nonneg (by linarith) hdelta.le
  have hm1 : (value - r.minimum) / (r.maximum - r.minimum) ≤ 1 :=
    (div_le_one hdelta).mpr (by linarith)
  set nval := r.curve.toFactor ((value - r.minimum) / (r.maximum - r.minimum))
    with hnval
  have hto : r.to_0to1 value = some nval := by
    simp [ParameterRange.to_0to1, hv1, hv2, hnval]
  have hset : setParameter params parameter_id value =
      some (params.map (fun q =>
        if q.parameter_name == parameter_id then { p with data := nval }
        else q)) := by
    simp [setParameter, hfind, TorchParameter.set_with_range, hrange, hto]
  have hfind2 : params.find?
      (fun q => q.parameter_name == parameter_id) = some p := hfind
  have hpred0 : (fun q : TorchParameter =>
      q.parameter_name == parameter_id) p = true :=
    @List.find?_some _ (fun q => q.parameter_name == parameter_id) p
      params hfind2
  have hpred :
      (({ p with data := nval } : TorchParameter).parameter_name
        == parameter_id) = true := hpred0
  have hfind' : findParameter (params.map (fun q =>
      if q.parameter_name == parameter_id then { p with data := nval }
      else q)) parameter_id = some { p with data := nval } :=
    @find?_replace TorchParameter
      (fun q => q.parameter_name == parameter_id)
      { p with data := nval } hpred params p hfind2
  constructor
  · rw [hset]
    simp only [Option.some_bind', hfind', Option.map_some', hto]
  · rw [hset]
    simp only [Option.some_bind', getParameterReal]
    rw [hfind']
    simp only [TorchParameter.get_in_range, hrange]
    have hn0 : 0 ≤ nval := Curve.toFactor_nonneg _ hm0
    have hn1 : nval ≤ 1 := Curve.toFactor_le_one _ hm0 hm1
    have hcond : (0:ℝ) ≤ nval ∧ nval ≤ 1 := ⟨hn0, hn1⟩
    have harith : r.minimum + (r.maximum - r.minimum) *
        ((value - r.minimum) / (r.maximum - r.minimum)) = value := by
      field_simp
    simp only [ParameterRange.from_0to1]
    rw [if_pos hcond, hnval, Curve.fromFactor_toFactor _ hm0, harith]

/-- The ADSR `sustain` parameter with its linear `(0, 1)` range, stored
at normalized value 1/2. -/
noncomputable def sustainParam : TorchParameter :=
  { parameter_name := "sustain", data := 1/2,
    parameter_range := some { minimum := 0, maximum := 1, curve := .linear } }

/-- C1 (witness): the theorem applied to a one-parameter registry holding
`sustainParam`, setting the real value 7/10. -/
theorem claim_C1_witness :
    (setParameter [sustainParam] "sustain" (7/10)).bind
        (fun ps => (findParameter ps "sustain").map TorchParameter.data)
      = ParameterRange.to_0to1
          { minimum := 0, maximum := 1, curve := .linear } (7/10) ∧
    (setParameter [sustainParam] "sustain" (7/10)).bind
        (fun ps => getParameterReal ps "sustain") = some (7/10) :=
  claim_C1 [sustainParam] "sustain" sustainParam
    { minimum := 0, maximum := 1, curve := .linear }
    (by simp [findParameter, sustainParam]) rfl (by norm_num)
    (7/10) (by norm_num) (by norm_num)

/-- C4 (amended): for every ParameterRange with `minimum < maximum`
(strict — see the counterexample for the degenerate `minimum = maximum`
case the claim also admitted) and every `x ∈ [0,1]`,
`to_0to1(from_0to1(x))` is exactly `x` in real arithmetic — in
particular within floating-point tolerance — and at `x = 0` under the
non-linear curves the composition is exactly 0 with no NaN (the float
`exp2(log2 0 / curve) = exp2(-inf) = 0` route agrees with the real-valued
factors `0^2` and `√0`). -/
theorem claim_C4 (r : ParameterRange) (hlt : r.minimum < r.maximum)
    (x : ℝ) (h0 : 0 ≤ x) (h1 : x ≤ 1) :
    (r.from_0to1 x).bind r.to_0to1 = some x := by
  have hdelta : (0:ℝ) < r.maximum - r.minimum := by linarith
  have hf0 : 0 ≤ r.curve.fromFactor x := Curve.fromFactor_nonneg _ h0
  have hf1 : r.curve.fromFactor x ≤ 1 := Curve.fromFactor_le_one _ h0 h1
  have hfrom : r.from_0to1 x =
      some (r.minimum + (r.maximum - r.minimum) * r.curve.fromFactor x) := by
    simp [ParameterRange.from_0to1, h0, h1]
  rw [hfrom, Option.some_bind']
  have hlow : r.minimum ≤
      r.minimum + (r.maximum - r.minimum) * r.curve.fromFactor x := by
    nlinarith
  have hhigh : r.minimum + (r.maximum - r.minimum) * r.curve.fromFactor x ≤
      r.maximum := by
    nlinarith
  simp only [ParameterRange.to_0to1]
  rw [if_pos ⟨hlow, hhigh⟩]
  have hnorm : (r.minimum + (r.maximum - r.minimum) * r.curve.fromFactor x
        - r.minimum) / (r.maximum - r.minimum) = r.curve.fromFactor x := by
    field_simp
  rw [hnorm, Curve.toFactor_fromFactor _ h0]

/-- A ParameterRange with `minimum = maximum` (which the claim's
"any minimum <= maximum" admits). -/
noncomputable def degenerateRange : ParameterRange :=
  { minimum := 1, maximum := 1, curve := .linear }

/-- C4 (counterexample): on the degenerate range `[1, 1]` the claim as
stated fails: `from_0to1(1/2) = 1`, and `to_0to1(1)` computes
`(1 - 1) / (1 - 1)` — `0/0`, a NaN in the source's float arithmetic and
the junk value 0 in this real-valued model — so the round trip does not
return `1/2` under any tolerance. -/
theorem claim_C4_counterexample :
    (degenerateRange.from_0to1 (1/2)).bind degenerateRange.to_0to1
      ≠ some (1/2) := by
  norm_num [degenerateRange, ParameterRange.from_0to1,
    ParameterRange.to_0to1, Curve.fromFactor, Curve.toFactor]

/-- C4 (witness): the amended theorem applied to the attack parameter's
log-curve range `(0, 2)` at `x = 1/4`. -/
theorem claim_C4_witness :
    ((ParameterRange.from_0to1
        { minimum := 0, maximum := 2, curve := .log } (1/4)).bind
      (ParameterRange.to_0to1
        { minimum := 0, maximum := 2, curve := .log })) = some (1/4) :=
  claim_C4 { minimum := 0, maximum := 2, curve := .log } (by norm_num)
    (1/4) (by norm_num) (by norm_num)

/-- C5 (code bug): at `control_in = [1, 1]` and `audio_in = [2, 1]` (peak
magnitude 2), the claim requires the audio to be rescaled to peak 1
before the multiplication, giving `[1, 1/2]`; but the source evaluates
`normalize(audio_in)` without assigning the result, so the original
audio is multiplied and the render returns `[2, 1]` with peak 2.  The
second conjunct shows what the discarded `normalize` call computed. -/
theorem claim_C5 :
    TorchVCA.forward [1, 1] [2, 1] = some [2, 1] ∧
    torchutil.normalize [2, 1] = [1, 1/2] := by
  constructor
  · norm_num [TorchVCA.forward, torchutil.fix_length]
  · norm_num [torchutil.normalize]

lemma TorchVCO.render_eq (v : TorchVCO) (mod_signal : List ℝ) (phase : ℝ)
    (hne : mod_signal ≠ [])
    (hmod : ∀ m ∈ mod_signal, -1 ≤ m ∧ m ≤ 1) :
    v.render mod_signal phase =
      some ({ v with phase := (v.cosArg mod_signal phase).getLast! },
        v.oscillator (v.cosArg mod_signal phase)) := by
  have harg : v.cosArg mod_signal phase ≠ [] := by
    intro h
    apply hne
    have hlen := v.cosArg_length mod_signal phase
    rw [h] at hlen
    exact List.length_eq_zero.mp hlen.symm
  have hemp : ¬ ((v.cosArg mod_signal phase).isEmpty = true) := by
    simpa [List.isEmpty_iff] using harg
  simp only [TorchVCO.render, if_pos hmod, if_neg hemp]

/-- C7 (amended): for every VCO variant, after a successful render the
stored phase equals the last element of the cosine argument (and all
other state is unchanged); the phase persists, but the render call never
*reads* the stored phase — the phase term it adds is the explicit
`phase` argument, which defaults to 0 at the call site — so successive
render calls produce a continuous waveform across buffer boundaries only
if the caller passes the previously stored phase explicitly. -/
theorem claim_C7 (v : TorchVCO) (mod_signal : List ℝ) (phase : ℝ)
    (hne : mod_signal ≠ [])
    (hmod : ∀ m ∈ mod_signal, -1 ≤ m ∧ m ≤ 1) :
    v.render mod_signal phase =
      some ({ v with phase := (v.cosArg mod_signal phase).getLast! },
        v.oscillator (v.cosArg mod_signal phase)) :=
  TorchVCO.render_eq v mod_signal phase hne hmod

/-- A sine VCO whose normalized pitch `69/127` is the real midi pitch 69
(440 Hz), with zero modulation depth and initial phase 0. -/
noncomputable def sineAt440 : TorchVCO :=
  { kind := .sine, pitch := 69/127, mod_depth := 0, shape := 0, phase := 0 }

/-- C7 (witness): the amended theorem applied to `sineAt440` with the
one-sample modulation signal `[0]` and the default phase 0. -/
theorem claim_C7_witness :
    TorchVCO.render sineAt440 [0] 0 =
      some ({ sineAt440 with
          phase := (TorchVCO.cosArg sineAt440 [0] 0).getLast! },
        TorchVCO.oscillator sineAt440 (TorchVCO.cosArg sineAt440 [0] 0)) :=
  claim_C7 sineAt440 [0] 0 (by simp) (by norm_num)

lemma TorchVCO.render_ignores_phase (k : VCOKind)
    (pitch mod_depth shape : ℚ) (p1 p2 : ℝ) (mod_signal : List ℝ)
    (phase : ℝ) :
    (TorchVCO.render ⟨k, pitch, mod_depth, shape, p1⟩ mod_signal phase).map
        (fun r => (r.1.phase, r.2)) =
      (TorchVCO.render ⟨k, pitch, mod_depth, shape, p2⟩ mod_signal phase).map
        (fun r => (r.1.phase, r.2)) := by
  have hcos : TorchVCO.cosArg ⟨k, pitch, mod_depth, shape, p2⟩ mod_signal phase
      = TorchVCO.cosArg ⟨k, pitch, mod_depth, shape, p1⟩ mod_signal phase := rfl
  have hosc : TorchVCO.oscillator ⟨k, pitch, mod_depth, shape, p2⟩
      = TorchVCO.oscillator ⟨k, pitch, mod_depth, shape, p1⟩ := rfl
  by_cases hmod : ∀ m ∈ mod_signal, -1 ≤ m ∧ m ≤ 1
  · simp only [TorchVCO.render, if_pos hmod, hcos, hosc]
  · simp only [TorchVCO.render, if_neg hmod]

/-- C9: the output buffer of a render call is determined solely by the
explicit arguments and the parameter values — two renders identical in
everything but the stored `phase` field return identical outputs (render
writes that field but never reads it). -/
theorem claim_C9 (k : VCOKind) (pitch mod_depth shape : ℚ) (p1 p2 : ℝ)
    (mod_signal : List ℝ) (phase : ℝ) :
    (TorchVCO.render ⟨k, pitch, mod_depth, shape, p1⟩ mod_signal phase).map
        Prod.snd =
      (TorchVCO.render ⟨k, pitch, mod_depth, shape, p2⟩ mod_signal phase).map
        Prod.snd := by
  have h := TorchVCO.render_ignores_phase k pitch mod_depth shape p1 p2
    mod_signal phase
  have h2 := congrArg (Option.map Prod.snd) h
  simpa [Option.map_map, Function.comp] using h2

/-- The cosine-argument value after one render of `sineAt440` on the
one-sample signal `[0]`: one phase step of a 440 Hz oscillator. -/
noncomputable def sinePhaseStep : ℝ := 2 * Real.pi * midiToHz 69 / SAMPLE_RATE

lemma getLast!_single (x : ℝ) : ([x] : List ℝ).getLast! = x := rfl

lemma sineAt440_cosArg_getLast :
    (TorchVCO.cosArg sineAt440 [0] 0).getLast! = sinePhaseStep := by
  have harg : (0:ℝ) + (127 - 0) * ((69/127 : ℚ) : ℝ)
      + ((0:ℝ) + (127 - 0) * ((0:ℚ):ℝ)) * 0 = 69 := by
    push_cast
    norm_num
  simp only [TorchVCO.cosArg, cumsum, TorchVCO.makeControlAsFrequency,
    sineAt440, TorchVCO.pPitch, TorchVCO.pModDepth, List.map_cons,
    List.map_nil, List.scanl, List.drop, getLast!_single, sinePhaseStep]
  rw [harg]
  ring

lemma sinePhaseStep_pos : 0 < sinePhaseStep := by
  have hhz : (0:ℝ) < midiToHz 69 := by
    unfold midiToHz
    positivity
  unfold sinePhaseStep SAMPLE_RATE
  positivity

/-- C7 (counterexample): rendering `sineAt440` twice in succession with
the python-default phase argument 0 refutes "persists across calls so
that successive render calls produce a continuous waveform": the stored
phase after the second call equals the stored phase after the first call
(the second call restarts the phase integral at 0 instead of reading the
stored value), although one buffer advances the phase of this non-silent
440 Hz oscillator by the nonzero step `sinePhaseStep` — a continuous
waveform would have ended the second buffer at twice the stored phase. -/
theorem claim_C7_counterexample :
    ((TorchVCO.render sineAt440 [0] 0).bind
        (fun p => (TorchVCO.render p.1 [0] 0).map (fun q => q.1.phase)))
      = (TorchVCO.render sineAt440 [0] 0).map (fun p => p.1.phase) ∧
    (TorchVCO.render sineAt440 [0] 0).map (fun p => p.1.phase) ≠ some 0 := by
  have hne : ([0] : List ℝ) ≠ [] := by simp
  have hmod : ∀ m ∈ ([0] : List ℝ), -1 ≤ m ∧ m ≤ 1 := by norm_num
  have hphase : ∀ (v : TorchVCO),
      (TorchVCO.render v [0] 0).map (fun p => p.1.phase) =
        some ((TorchVCO.cosArg v [0] 0).getLast!) := by
    intro v
    rw [TorchVCO.render_eq v [0] 0 hne hmod]
    simp
  have h1 := TorchVCO.render_eq sineAt440 [0] 0 hne hmod
  have hcos2 : TorchVCO.cosArg
      { sineAt440 with phase := (TorchVCO.cosArg sineAt440 [0] 0).getLast! }
      [0] 0 = TorchVCO.cosArg sineAt440 [0] 0 := rfl
  constructor
  · rw [h1, Option.some_bind']
    simp only [hphase, hcos2]
    simp
  · rw [hphase sineAt440, sineAt440_cosArg_getLast]
    simp only [ne_eq, Option.some.injEq]
    exact sinePhaseStep_pos.ne'

lemma midiToHz_strictMono {a b : ℝ} (h : a < b) : midiToHz a < midiToHz b := by
  unfold midiToHz
  have hexp : (2:ℝ) ^ ((a - 69) / 12) < 2 ^ ((b - 69) / 12) :=
    (Real.rpow_lt_rpow_left_iff (by norm_num : (1:ℝ) < 2)).mpr (by linarith)
  nlinarith

lemma one_lt_midiToHz {a : ℝ} (h : 0 ≤ a) : 1 < midiToHz a := by
  unfold midiToHz
  have h1 : (2:ℝ) ^ ((-6 : ℝ)) ≤ 2 ^ ((a - 69) / 12) :=
    (Real.rpow_le_rpow_left_iff (by norm_num : (1:ℝ) < 2)).mpr (by linarith)
  have h2 : (2:ℝ) ^ ((-6 : ℝ)) = 1 / 64 := by
    rw [show ((-6 : ℝ)) = -((6:ℕ) : ℝ) by norm_num,
      Real.rpow_neg (by norm_num), Real.rpow_natCast]
    norm_num
  nlinarith

lemma mul_logb_strictMono {x y : ℝ} (hx : 1 < x) (hxy : x < y) :
    x * Real.logb 10 x < y * Real.logb 10 y := by
  have hlx : 0 < Real.logb 10 x := Real.logb_pos (by norm_num) hx
  have hly : Real.logb 10 x < Real.logb 10 y :=
    Real.logb_lt_logb (by norm_num) (by linarith) hxy
  nlinarith

/-- C8: `partials_constant = 12000 / (max_f0 * log10(max_f0))` with
`max_f0 = midi_to_hz(pitch + mod_depth)` is strictly decreasing as the
real value of `pitch + mod_depth` increases over the declared
(non-negative) parameter range. -/
theorem claim_C8 (v w : TorchVCO) (hp : 0 ≤ v.pitch) (hm : 0 ≤ v.mod_depth)
    (hlt : v.pitch + v.mod_depth < w.pitch + w.mod_depth) :
    w.partials_constant < v.partials_constant := by
  have hpr : (0:ℝ) ≤ (v.pitch : ℝ) := by exact_mod_cast hp
  have hmr : (0:ℝ) ≤ (v.mod_depth : ℝ) := by exact_mod_cast hm
  have hsumq : ((v.pitch : ℝ) + (v.mod_depth : ℝ))
      < ((w.pitch : ℝ) + (w.mod_depth : ℝ)) := by exact_mod_cast hlt
  have hv0 : (0:ℝ) ≤ v.pPitch + v.pModDepth := by
    unfold TorchVCO.pPitch TorchVCO.pModDepth
    nlinarith
  have hsum : v.pPitch + v.pModDepth < w.pPitch + w.pModDepth := by
    unfold TorchVCO.pPitch TorchVCO.pModDepth
    nlinarith
  have h1a : 1 < midiToHz (v.pPitch + v.pModDepth) := one_lt_midiToHz hv0
  have h1b : 1 < midiToHz (w.pPitch + w.pModDepth) :=
    one_lt_midiToHz (by linarith)
  have hfab : midiToHz (v.pPitch + v.pModDepth)
      < midiToHz (w.pPitch + w.pModDepth) := midiToHz_strictMono hsum
  have hden_a : 0 < midiToHz (v.pPitch + v.pModDepth) *
      Real.logb 10 (midiToHz (v.pPitch + v.pModDepth)) :=
    mul_pos (by linarith) (Real.logb_pos (by norm_num) h1a)
  have hden : midiToHz (v.pPitch + v.pModDepth) *
        Real.logb 10 (midiToHz (v.pPitch + v.pModDepth))
      < midiToHz (w.pPitch + w.pModDepth) *
        Real.logb 10 (midiToHz (w.pPitch + w.pModDepth)) :=
    mul_logb_strictMono h1a hfab
  unfold TorchVCO.partials_constant
  exact div_lt_div_of_pos_left (by norm_num) hden_a hden

/-- A square/saw VCO at the bottom of the declared pitch range. -/
noncomputable def squareSawLow : TorchVCO :=
  { kind := .squaresaw, pitch := 0, mod_depth := 0, shape := 0, phase := 0 }

/-- A square/saw VCO with maximal normalized pitch (real midi 127). -/
noncomputable def squareSawHigh : TorchVCO :=
  { kind := .squaresaw, pitch := 1, mod_depth := 0, shape := 0, phase := 0 }

/-- C8 (witness): the theorem applied at the two concrete square/saw
modules above. -/
theorem claim_C8_witness :
    squareSawHigh.partials_constant < squareSawLow.partials_constant :=
  claim_C8 squareSawLow squareSawHigh
    (by norm_num [squareSawLow]) (by norm_num [squareSawLow])
    (by norm_num [squareSawLow, squareSawHigh])
